import Mathlib

/-!
Verification of the scripted-element adapter and dialog invocation adapter
of the ZEISS inspect API wheel (src/gom/extensions.py and
src/gom/api/dialog/__init__.py).

The stateful Python loop in `ScriptedElement.compute_stages` is embedded as
explicit state passing: the execution context is threaded through the loop,
and an observation trace (`calls`) records the exact context and keyword
arguments passed to each invocation of the author-supplied `compute`
function.  A `compute` that may raise is modelled as a function returning
`Except`.
-/

/-- Host-owned script execution context.  It carries the ordered sequence of
stage identifiers (`stages`, opaque integers) and the mutable current-stage
field (`stage`), the only two fields this layer reads or writes. -/
structure ExecutionContext where
  stages : List Int
  stage : Int
deriving DecidableEq

/-- Keyword arguments: an ordered mapping from widget/parameter name to
value, modelled as an association list with unique keys left implicit. -/
abbrev Kwargs (V : Type) := List (String × V)

/-- The kinds of parameters reported by Python's `inspect` module that the
adapter distinguishes. -/
inductive ParameterKind where
  | POSITIONAL_ONLY
  | POSITIONAL_OR_KEYWORD
  | VAR_POSITIONAL
  | KEYWORD_ONLY
  | VAR_KEYWORD
deriving DecidableEq

/-- One declared parameter of the author's `compute` implementation, as
reported by `inspect.signature(self.compute).parameters`. -/
structure Parameter where
  name : String
  kind : ParameterKind
deriving DecidableEq

/-- The check `any(p.kind == inspect.Parameter.VAR_POSITIONAL for p in
params.values())` from `compute_stages`. -/
def hasArgs (params : List Parameter) : Bool :=
  params.any fun p => p.kind == ParameterKind.VAR_POSITIONAL

/-- The check `any(p.kind == inspect.Parameter.VAR_KEYWORD for p in
params.values())` from `compute_stages`. -/
def hasKwargs (params : List Parameter) : Bool :=
  params.any fun p => p.kind == ParameterKind.VAR_KEYWORD

/-- The keyword filtering step of `compute_stages`:
`if not (has_args or has_kwargs): kwargs = {k: v for k, v in kwargs.items()
if k in params}`.  Membership `k in params` is membership among the declared
parameter names. -/
def filterComputeKwargs {V : Type} (params : List Parameter)
    (kwargs : Kwargs V) : Kwargs V :=
  if !(hasArgs params || hasKwargs params) then
    kwargs.filter fun kv => params.any fun p => p.name == kv.1
  else
    kwargs

/-- Complete observable outcome of one `compute_stages` run: the returned
vector or the propagated exception (`result`), the context as it stands when
the call ends (`finalContext`), and the trace of arguments passed to each
`compute` invocation, in call order (`calls`). -/
structure StagesRunResult (E V : Type) where
  result : Except E (List V)
  finalContext : ExecutionContext
  calls : List (ExecutionContext × Kwargs V)

/-- The per-stage loop of `compute_stages`:
`for stage in context.stages: context.stage = stage;
result.append(self.compute(context, **kwargs))`.
An exception from `compute` propagates immediately: the partial `result`
list is a local variable and is never returned. -/
def computeStagesLoop {E V : Type}
    (compute : ExecutionContext → Kwargs V → Except E V)
    (kwargs : Kwargs V) : ExecutionContext → List Int → StagesRunResult E V
  | ctx, [] => ⟨Except.ok [], ctx, []⟩
  | ctx, s :: rest =>
    let ctx2 : ExecutionContext := { ctx with stage := s }
    match compute ctx2 kwargs with
    | Except.error e => ⟨Except.error e, ctx2, [(ctx2, kwargs)]⟩
    | Except.ok v =>
      let r := computeStagesLoop compute kwargs ctx2 rest
      ⟨Except.map (fun vs => v :: vs) r.result, r.finalContext,
        (ctx2, kwargs) :: r.calls⟩

/-- Default `ScriptedElement.compute_stages` (extensions.py, lines 112-141):
filter the incoming keyword arguments against the declared parameters of the
author's `compute`, then run `compute` once per stage in sequence order,
collecting the results into a vector.  The author's `compute` and its
introspected parameter list are inputs of the embedding. -/
def compute_stages {E V : Type} (params : List Parameter)
    (compute : ExecutionContext → Kwargs V → Except E V)
    (context : ExecutionContext) (kwargs : Kwargs V) : StagesRunResult E V :=
  let filtered := filterComputeKwargs params kwargs
  computeStagesLoop compute filtered context context.stages

/-- A callable registered with the host is a bound method of the element
itself: either its `dialog` method or its `compute_stages` method. -/
inductive BoundMethod where
  | dialog
  | compute_stages
deriving DecidableEq

/-- The registration request passed to the external
`gom.__common__.Contribution` constructor: name, category, named callables
and named properties. -/
structure Contribution where
  name : String
  category : String
  callables : List (String × BoundMethod)
  properties : List (String × String)
deriving DecidableEq

/-- `ScriptedElement.__init__` (extensions.py, lines 78-93): registers the
element under the given name and category with callables `dialog` and
`compute_stages` (bound to the element's own methods) and the single
property `element_type`. -/
def ScriptedElement.init (name element_type category : String) :
    Contribution :=
  { name := name
    category := category
    callables :=
      [("dialog", BoundMethod.dialog),
       ("compute_stages", BoundMethod.compute_stages)]
    properties := [("element_type", element_type)] }

/-- `ScriptedActual.__init__` (extensions.py, lines 149-156). -/
def ScriptedActual.init (name element_type : String) : Contribution :=
  ScriptedElement.init name element_type "scriptedelement.actual"

/-- `ScriptedCheck.__init__` (extensions.py, lines 164-171). -/
def ScriptedCheck.init (name element_type : String) : Contribution :=
  ScriptedElement.init name element_type "scriptedelement.check"

/-- `gom.api.dialog.execute` (dialog/__init__.py, lines 16-32):
`return gom.__api__.__call_function__(context, data)`.  The opaque host
boundary `__call_function__` is an input of the embedding; an error raised
by the host propagates as the `Except.error` case. -/
def execute {Ctx R E : Type} (call_function : Ctx → String → Except E R)
    (context : Ctx) (data : String) : Except E R :=
  call_function context data

/-- Every `compute` invocation in a run receives exactly the keyword
arguments the loop was started with. -/
theorem computeStagesLoop_calls_kwargs {E V : Type}
    (f : ExecutionContext → Kwargs V → Except E V) (kw : Kwargs V) :
    ∀ (ss : List Int) (ctx : ExecutionContext) (c : ExecutionContext × Kwargs V),
      c ∈ (computeStagesLoop f kw ctx ss).calls → c.2 = kw := by
  intro ss
  induction ss with
  | nil =>
    intro ctx c hc
    simp [computeStagesLoop] at hc
  | cons s rest ih =>
    intro ctx c hc
    simp only [computeStagesLoop] at hc
    cases hfc : f { ctx with stage := s } kw with
    | error e =>
      rw [hfc] at hc
      simp at hc
      rw [hc]
    | ok v =>
      rw [hfc] at hc
      simp at hc
      rcases hc with hc | hc
      · rw [hc]
      · exact ih _ c hc

/-- The stage fields of the contexts passed to `compute`, in call order,
are exactly the first entries of the stage sequence. -/
theorem computeStagesLoop_calls_stage {E V : Type}
    (f : ExecutionContext → Kwargs V → Except E V) (kw : Kwargs V) :
    ∀ (ss : List Int) (ctx : ExecutionContext),
      (computeStagesLoop f kw ctx ss).calls.map (fun c => c.1.stage) =
        ss.take (computeStagesLoop f kw ctx ss).calls.length := by
  intro ss
  induction ss with
  | nil =>
    intro ctx
    simp [computeStagesLoop]
  | cons s rest ih =>
    intro ctx
    simp only [computeStagesLoop]
    cases hfc : f { ctx with stage := s } kw with
    | error e => simp
    | ok v =>
      simp only [List.map_cons, List.length_cons, List.take_succ_cons]
      rw [ih]

/-- Total run: when `compute` never raises, the loop returns the stage-wise
map of `compute` over the stage sequence and calls `compute` once per stage,
each time on the context whose current stage is that stage. -/
theorem computeStagesLoop_total {E V : Type}
    (g : ExecutionContext → Kwargs V → V) (kw : Kwargs V) :
    ∀ (ss : List Int) (ctx : ExecutionContext),
      (computeStagesLoop (fun c k => (Except.ok (g c k) : Except E V))
          kw ctx ss).result =
        Except.ok (ss.map fun s => g { ctx with stage := s } kw) ∧
      (computeStagesLoop (fun c k => (Except.ok (g c k) : Except E V))
          kw ctx ss).calls =
        ss.map fun s => ({ ctx with stage := s }, kw) := by
  intro ss
  induction ss with
  | nil =>
    intro ctx
    exact ⟨rfl, rfl⟩
  | cons s rest ih =>
    intro ctx
    simp only [computeStagesLoop, List.map_cons]
    constructor
    · rw [(ih { ctx with stage := s }).1]
      rfl
    · rw [(ih { ctx with stage := s }).2]

/-- Fail-fast run: if `compute` succeeds on the first `k` stages and raises
on stage `k`, the loop propagates that error unmodified and performs exactly
`k + 1` calls. -/
theorem computeStagesLoop_error {E V : Type}
    (f : ExecutionContext → Kwargs V → Except E V) (kw : Kwargs V) :
    ∀ (k : Nat) (ss : List Int) (ctx : ExecutionContext)
      (hk : k < ss.length) (e : E),
      (∀ (j : Nat) (hj : j < k),
        ∃ v, f { ctx with stage := ss.get ⟨j, Nat.lt_trans hj hk⟩ } kw =
          Except.ok v) →
      f { ctx with stage := ss.get ⟨k, hk⟩ } kw = Except.error e →
      (computeStagesLoop f kw ctx ss).result = Except.error e ∧
      (computeStagesLoop f kw ctx ss).calls.length = k + 1 := by
  intro k
  induction k with
  | zero =>
    intro ss ctx hk e hok herr
    match ss, hk with
    | s :: rest, hk =>
      have herr2 : f { ctx with stage := s } kw = Except.error e := herr
      simp [computeStagesLoop, herr2]
  | succ k ihk =>
    intro ss ctx hk e hok herr
    match ss, hk with
    | s :: rest, hk =>
      obtain ⟨v, hv⟩ := hok 0 (Nat.succ_pos k)
      have hv2 : f { ctx with stage := s } kw = Except.ok v := hv
      have hk2 : k < rest.length := Nat.lt_of_succ_lt_succ hk
      obtain ⟨hres, hlen⟩ := ihk rest { ctx with stage := s } hk2 e
        (fun j hj => hok (j + 1) (Nat.succ_lt_succ hj)) herr
      simp only [computeStagesLoop, hv2]
      refine ⟨?_, ?_⟩
      · rw [hres]
        rfl
      · simp [hlen]

/-- Successful run on a non-empty stage sequence: the final context is the
input context with its current stage set to the last stage; no other field
changes. -/
theorem computeStagesLoop_final {E V : Type}
    (f : ExecutionContext → Kwargs V → Except E V) (kw : Kwargs V) :
    ∀ (ss : List Int) (ctx : ExecutionContext) (vs : List V) (h : ss ≠ []),
      (computeStagesLoop f kw ctx ss).result = Except.ok vs →
      (computeStagesLoop f kw ctx ss).finalContext =
        { ctx with stage := ss.getLast h } := by
  intro ss
  induction ss with
  | nil =>
    intro ctx vs h
    exact absurd rfl h
  | cons s rest ih =>
    intro ctx vs h hres
    cases hfc : f { ctx with stage := s } kw with
    | error e =>
      have heq : computeStagesLoop f kw ctx (s :: rest) =
          ⟨Except.error e, { ctx with stage := s },
           [({ ctx with stage := s }, kw)]⟩ := by
        simp only [computeStagesLoop, hfc]
      rw [heq] at hres
      exact absurd hres (by simp)
    | ok v =>
      have heq : computeStagesLoop f kw ctx (s :: rest) =
          ⟨Except.map (fun vs => v :: vs)
             (computeStagesLoop f kw { ctx with stage := s } rest).result,
           (computeStagesLoop f kw { ctx with stage := s } rest).finalContext,
           ({ ctx with stage := s }, kw) ::
             (computeStagesLoop f kw { ctx with stage := s } rest).calls⟩ := by
        simp only [computeStagesLoop, hfc]
      rw [heq] at hres ⊢
      cases hrr : (computeStagesLoop f kw { ctx with stage := s } rest).result
        with
      | error e2 =>
        rw [hrr] at hres
        exact absurd hres (by simp [Except.map])
      | ok vs2 =>
        cases rest with
        | nil =>
          simp [computeStagesLoop, List.getLast]
        | cons s2 rest2 =>
          have h2 : (s2 :: rest2 : List Int) ≠ [] := by simp
          have hfin := ih { ctx with stage := s } vs2 h2 hrr
          rw [hfin]
          simp [List.getLast_cons]

/-- C1: for every ExecutionContext and kwargs, the default compute_stages
returns a vector of length exactly len(context.stages) whose k-th entry is
the result of the k-th compute call, index-aligned with context.stages in
the same order (covering every length, including 1). -/
theorem compute_stages_stage_count {E V : Type} (params : List Parameter)
    (g : ExecutionContext → Kwargs V → V)
    (ctx : ExecutionContext) (kwargs : Kwargs V) :
    (compute_stages params (fun c k => (Except.ok (g c k) : Except E V))
        ctx kwargs).result =
      Except.ok (ctx.stages.map fun s =>
        g { ctx with stage := s } (filterComputeKwargs params kwargs)) ∧
    (ctx.stages.map fun s =>
        g { ctx with stage := s } (filterComputeKwargs params kwargs)).length =
      ctx.stages.length :=
  ⟨(computeStagesLoop_total g (filterComputeKwargs params kwargs)
      ctx.stages ctx).1,
   List.length_map _ _⟩

/-- C2: every compute call receives exactly the incoming kwargs filtered to
the declared parameter names of compute when compute declares no catch-all
of either kind, and the unfiltered incoming kwargs when it declares a
catch-all positional or keyword parameter. -/
theorem compute_stages_kwargs_filtering {E V : Type}
    (params : List Parameter) (f : ExecutionContext → Kwargs V → Except E V)
    (ctx : ExecutionContext) (kwargs : Kwargs V)
    (c : ExecutionContext × Kwargs V)
    (hc : c ∈ (compute_stages params f ctx kwargs).calls) :
    (hasArgs params = false ∧ hasKwargs params = false →
      c.2 = kwargs.filter fun kv => params.any fun p => p.name == kv.1) ∧
    (hasArgs params = true ∨ hasKwargs params = true → c.2 = kwargs) := by
  have hkw : c.2 = filterComputeKwargs params kwargs :=
    computeStagesLoop_calls_kwargs f _ ctx.stages ctx c hc
  constructor
  · rintro ⟨h1, h2⟩
    rw [hkw]
    simp [filterComputeKwargs, h1, h2]
  · intro h
    rw [hkw]
    rcases h with h | h <;> simp [filterComputeKwargs, h]

theorem compute_stages_kwargs_filtering_witness :
    (hasArgs [⟨"a", ParameterKind.POSITIONAL_OR_KEYWORD⟩] = false ∧
     hasKwargs [⟨"a", ParameterKind.POSITIONAL_OR_KEYWORD⟩] = false →
      ((⟨[0], 0⟩, [("a", 1)]) : ExecutionContext × Kwargs Nat).2 =
        ([("a", 1), ("c", 3)] : Kwargs Nat).filter fun kv =>
          [(⟨"a", ParameterKind.POSITIONAL_OR_KEYWORD⟩ : Parameter)].any
            fun p => p.name == kv.1) ∧
    (hasArgs [⟨"a", ParameterKind.POSITIONAL_OR_KEYWORD⟩] = true ∨
     hasKwargs [⟨"a", ParameterKind.POSITIONAL_OR_KEYWORD⟩] = true →
      ((⟨[0], 0⟩, [("a", 1)]) : ExecutionContext × Kwargs Nat).2 =
        [("a", 1), ("c", 3)]) :=
  compute_stages_kwargs_filtering
    [⟨"a", ParameterKind.POSITIONAL_OR_KEYWORD⟩]
    (fun _ _ => (Except.ok 0 : Except String Nat)) ⟨[0], 5⟩
    [("a", 1), ("c", 3)] (⟨[0], 0⟩, [("a", 1)]) (by decide)

/-- C3: during every default compute_stages invocation the contexts passed
to the successive compute calls carry current-stage fields that are exactly
the first entries of context.stages, in sequence order: immediately before
the k-th call the current-stage field equals context.stages[k]. -/
theorem compute_stages_current_stage_order {E V : Type}
    (params : List Parameter) (f : ExecutionContext → Kwargs V → Except E V)
    (ctx : ExecutionContext) (kwargs : Kwargs V) :
    (compute_stages params f ctx kwargs).calls.map (fun c => c.1.stage) =
      ctx.stages.take (compute_stages params f ctx kwargs).calls.length :=
  computeStagesLoop_calls_stage f _ ctx.stages ctx

/-- C4: if compute succeeds on the first k stages and raises on stage k,
the default compute_stages propagates that same error unmodified, performs
exactly k + 1 compute calls (none after the failing stage), and returns no
result vector. -/
theorem compute_stages_fail_fast {E V : Type} (params : List Parameter)
    (f : ExecutionContext → Kwargs V → Except E V)
    (ctx : ExecutionContext) (kwargs : Kwargs V) (k : Nat)
    (hk : k < ctx.stages.length) (e : E)
    (hok : ∀ (j : Nat) (hj : j < k),
      ∃ v, f { ctx with stage := ctx.stages.get ⟨j, Nat.lt_trans hj hk⟩ }
        (filterComputeKwargs params kwargs) = Except.ok v)
    (herr : f { ctx with stage := ctx.stages.get ⟨k, hk⟩ }
        (filterComputeKwargs params kwargs) = Except.error e) :
    (compute_stages params f ctx kwargs).result = Except.error e ∧
    (compute_stages params f ctx kwargs).calls.length = k + 1 :=
  computeStagesLoop_error f _ k ctx.stages ctx hk e hok herr

theorem compute_stages_fail_fast_witness :
    (compute_stages []
        (fun c _ => if c.stage == 1
          then (Except.error "stage one failed" : Except String Int)
          else Except.ok c.stage)
        ⟨[0, 1, 2], 7⟩ []).result = Except.error "stage one failed" ∧
    (compute_stages []
        (fun c _ => if c.stage == 1
          then (Except.error "stage one failed" : Except String Int)
          else Except.ok c.stage)
        ⟨[0, 1, 2], 7⟩ []).calls.length = 2 :=
  compute_stages_fail_fast []
    (fun c _ => if c.stage == 1
      then (Except.error "stage one failed" : Except String Int)
      else Except.ok c.stage)
    ⟨[0, 1, 2], 7⟩ [] 1 (by decide) "stage one failed"
    (by
      intro j hj
      have hj0 : j = 0 := Nat.lt_one_iff.mp hj
      subst hj0
      exact ⟨0, rfl⟩)
    rfl

/-- C5: for context.stages = [0], the default compute_stages result is the
singleton vector holding the one filtered compute call's result. -/
theorem compute_stages_single_stage {E V : Type} (params : List Parameter)
    (g : ExecutionContext → Kwargs V → V) (ctx : ExecutionContext)
    (kwargs : Kwargs V) (h : ctx.stages = [0]) :
    (compute_stages params (fun c k => (Except.ok (g c k) : Except E V))
        ctx kwargs).result =
      Except.ok [g { ctx with stage := 0 }
        (filterComputeKwargs params kwargs)] := by
  show (computeStagesLoop (fun c k => (Except.ok (g c k) : Except E V))
      (filterComputeKwargs params kwargs) ctx ctx.stages).result = _
  have htot := (@computeStagesLoop_total E V g
    (filterComputeKwargs params kwargs) ctx.stages ctx).1
  rw [h] at htot
  rw [h]
  exact htot

theorem compute_stages_single_stage_witness :
    (compute_stages []
        (fun c _ => (Except.ok c.stage : Except String Int))
        ⟨[0], 5⟩ []).result = Except.ok [(0 : Int)] :=
  compute_stages_single_stage [] (fun c _ => c.stage) ⟨[0], 5⟩ [] rfl

/-- C6: constructing a ScriptedActual always yields category
scriptedelement.actual and constructing a ScriptedCheck always yields
category scriptedelement.check, whatever name and element_type are
supplied. -/
theorem scripted_variant_category_fixed (name element_type : String) :
    (ScriptedActual.init name element_type).category =
      "scriptedelement.actual" ∧
    (ScriptedCheck.init name element_type).category =
      "scriptedelement.check" :=
  ⟨rfl, rfl⟩

/-- C7: execute forwards its context and data arguments unchanged to the
host boundary call_function and returns its result (value or error)
unmodified, with no local catching or translation. -/
theorem execute_forwards_unchanged {Ctx R E : Type}
    (call_function : Ctx → String → Except E R) (context : Ctx)
    (data : String) :
    execute call_function context data = call_function context data :=
  rfl

/-- C8: constructing a ScriptedElement registers exactly the two callables
named dialog and compute_stages, bound to the element's own methods, and
exactly the one property element_type holding the supplied value. -/
theorem scripted_element_registration (name element_type category : String) :
    (ScriptedElement.init name element_type category).callables =
      [("dialog", BoundMethod.dialog),
       ("compute_stages", BoundMethod.compute_stages)] ∧
    (ScriptedElement.init name element_type category).properties =
      [("element_type", element_type)] :=
  ⟨rfl, rfl⟩

/-- C9: on an empty stage sequence the default compute_stages returns the
empty vector, never invokes compute, and leaves the context (including its
current-stage field) unchanged: the N >= 1 precondition is not checked. -/
theorem compute_stages_empty_stages {E V : Type} (params : List Parameter)
    (f : ExecutionContext → Kwargs V → Except E V) (ctx : ExecutionContext)
    (kwargs : Kwargs V) (h : ctx.stages = []) :
    compute_stages params f ctx kwargs = ⟨Except.ok [], ctx, []⟩ := by
  show computeStagesLoop f (filterComputeKwargs params kwargs)
    ctx ctx.stages = _
  rw [h]
  rfl

theorem compute_stages_empty_stages_witness :
    compute_stages []
      (fun c _ => (Except.ok c.stage : Except String Int)) ⟨[], 5⟩ [] =
      ⟨Except.ok [], ⟨[], 5⟩, []⟩ :=
  compute_stages_empty_stages []
    (fun c _ => (Except.ok c.stage : Except String Int)) ⟨[], 5⟩ [] rfl

/-- C10: after a default compute_stages call that returns successfully on a
non-empty stage sequence, the context's current-stage field equals the last
element of context.stages and no other field of the context is modified:
the per-stage mutation persists and is never restored. -/
theorem compute_stages_final_stage_persists {E V : Type}
    (params : List Parameter) (f : ExecutionContext → Kwargs V → Except E V)
    (ctx : ExecutionContext) (kwargs : Kwargs V) (vs : List V)
    (h : ctx.stages ≠ [])
    (hres : (compute_stages params f ctx kwargs).result = Except.ok vs) :
    (compute_stages params f ctx kwargs).finalContext =
      { ctx with stage := ctx.stages.getLast h } :=
  computeStagesLoop_final f _ ctx.stages ctx vs h hres

theorem compute_stages_final_stage_persists_witness :
    (compute_stages []
        (fun c _ => (Except.ok c.stage : Except String Int))
        ⟨[0, 1], 5⟩ []).finalContext = ⟨[0, 1], 1⟩ :=
  compute_stages_final_stage_persists []
    (fun c _ => (Except.ok c.stage : Except String Int))
    ⟨[0, 1], 5⟩ [] [0, 1] (by decide) rfl
